import Mathlib

/-!
Verification of the rule-namespace normalization / diff / reconciliation core of
the terraform-provider-cortextool repository (`cortextool/resource_rule_namespace.go`).

The embedding works at the YAML document-tree level: the YAML lexer/emitter is an
external standard library for the program, so a "YAML text" is represented by the
stream of document trees it parses to, and byte-identity of emitted text by equality
of the deterministic emitter's output.  Machine strings are Lean `String`s, bytes are
`Nat`s below 256.  The external ruler client is an explicit interface record and the
mock client of `mock_cortexruleclient.go` is one instantiation of it.  The external
expression validator (`ruler.ValidateGroups`) and linter (`RuleNamespace.LintExpressions`)
are not part of this repository; they are passed in as function parameters, following
the spec's description of them.
-/

namespace Cortextool

/-- A single alerting or recording rule (`rulefmt.RuleNode` as carried by
`rwrulefmt.RuleGroup`): record/alert name, expression, `for` duration, labels
and annotation mapping.  Mappings are association lists. -/
structure Rule where
  record : String
  alert : String
  expr : String
  forD : String
  labels : List (String × String)
  annots : List (String × String)
deriving DecidableEq, Repr

/-- `rwrulefmt.RuleGroup`: a named group of rules with an evaluation interval and
opaque remote-write configs. -/
structure RuleGroup where
  name : String
  interval : String
  rules : List Rule
  rwConfigs : List String
deriving DecidableEq, Repr

/-- `rules.RuleNamespace` as decoded by the provider: the `namespace` key and the
`groups` key (`Filepath` is not part of the YAML form). -/
structure RuleNamespace where
  nsName : String
  groups : List RuleGroup
deriving DecidableEq, Repr

/-- A parsed YAML document tree (the standard library's generic node model):
null, scalar, sequence or string-keyed mapping. -/
inductive Yaml where
  | null
  | scalar (s : String)
  | seq (items : List Yaml)
  | map (entries : List (String × Yaml))

/-- First-match lookup in an association list. -/
def lookupStr {α : Type} (entries : List (String × α)) (k : String) : Option α :=
  match entries with
  | [] => none
  | e :: es => if e.1 = k then some e.2 else lookupStr es k

/-- Error-propagating map over a list, used for decoding sequences. -/
def mapME {α β : Type} (f : α → Except String β) : List α → Except String (List β)
  | [] => .ok []
  | a :: as =>
    match f a with
    | .error e => .error e
    | .ok b =>
      match mapME f as with
      | .error e => .error e
      | .ok bs => .ok (b :: bs)

/-- Decode an optional YAML node into a string field (absent or null decodes to `""`). -/
def decodeStr : Option Yaml → Except String String
  | none => .ok ""
  | some Yaml.null => .ok ""
  | some (Yaml.scalar s) => .ok s
  | some _ => .error "cannot unmarshal node into string"

/-- Decode an optional YAML node into a string-to-string mapping (labels/annotation
maps; absent or null decodes to the empty mapping). -/
def decodeStrMap : Option Yaml → Except String (List (String × String))
  | none => .ok []
  | some Yaml.null => .ok []
  | some (Yaml.map kvs) =>
    mapME (fun kv =>
      match kv.2 with
      | Yaml.scalar s => .ok (kv.1, s)
      | Yaml.null => .ok (kv.1, "")
      | _ => .error "cannot unmarshal node into string") kvs
  | some _ => .error "cannot unmarshal node into mapping"

/-- The YAML keys of a rule node. -/
def ruleKeys : List String := ["record", "alert", "expr", "for", "labels", "annotations"]

/-- Decode one rule node.  `strict` models `decoder.KnownFields(true)`: unknown
keys are rejected. -/
def decodeRule (strict : Bool) (y : Yaml) : Except String Rule :=
  match y with
  | Yaml.null => .ok ⟨"", "", "", "", [], []⟩
  | Yaml.map kvs =>
    if strict && kvs.any (fun kv => !decide (kv.1 ∈ ruleKeys)) then
      .error "field not found in type rulefmt.RuleNode"
    else
      match decodeStr (lookupStr kvs "record") with
      | .error e => .error e
      | .ok record =>
      match decodeStr (lookupStr kvs "alert") with
      | .error e => .error e
      | .ok alert =>
      match decodeStr (lookupStr kvs "expr") with
      | .error e => .error e
      | .ok expr =>
      match decodeStr (lookupStr kvs "for") with
      | .error e => .error e
      | .ok forD =>
      match decodeStrMap (lookupStr kvs "labels") with
      | .error e => .error e
      | .ok labels =>
      match decodeStrMap (lookupStr kvs "annotations") with
      | .error e => .error e
      | .ok annots => .ok ⟨record, alert, expr, forD, labels, annots⟩
  | _ => .error "cannot unmarshal node into rulefmt.RuleNode"

/-- Decode an optional YAML node into the list of rules of a group. -/
def decodeRuleList (strict : Bool) : Option Yaml → Except String (List Rule)
  | none => .ok []
  | some Yaml.null => .ok []
  | some (Yaml.seq items) => mapME (decodeRule strict) items
  | some _ => .error "cannot unmarshal node into rule list"

/-- Decode an optional YAML node into remote-write configs (kept opaque). -/
def decodeRwConfigs : Option Yaml → Except String (List String)
  | none => .ok []
  | some Yaml.null => .ok []
  | some (Yaml.seq items) =>
    mapME (fun y =>
      match y with
      | Yaml.scalar s => .ok s
      | _ => .error "cannot unmarshal node into remote-write config") items
  | some _ => .error "cannot unmarshal node into remote-write config list"

/-- The YAML keys of a rule group. -/
def groupKeys : List String := ["name", "interval", "rules", "remote_write"]

/-- Decode one rule group node. -/
def decodeGroup (strict : Bool) (y : Yaml) : Except String RuleGroup :=
  match y with
  | Yaml.null => .ok ⟨"", "", [], []⟩
  | Yaml.map kvs =>
    if strict && kvs.any (fun kv => !decide (kv.1 ∈ groupKeys)) then
      .error "field not found in type rwrulefmt.RuleGroup"
    else
      match decodeStr (lookupStr kvs "name") with
      | .error e => .error e
      | .ok name =>
      match decodeStr (lookupStr kvs "interval") with
      | .error e => .error e
      | .ok interval =>
      match decodeRuleList strict (lookupStr kvs "rules") with
      | .error e => .error e
      | .ok rules =>
      match decodeRwConfigs (lookupStr kvs "remote_write") with
      | .error e => .error e
      | .ok rw => .ok ⟨name, interval, rules, rw⟩
  | _ => .error "cannot unmarshal node into rwrulefmt.RuleGroup"

/-- Decode a whole document as a bare top-level sequence of rule groups
(what `[]rwrulefmt.RuleGroup` unmarshals from). -/
def decodeGroupListDoc (strict : Bool) (y : Yaml) : Except String (List RuleGroup) :=
  match y with
  | Yaml.null => .ok []
  | Yaml.seq items => mapME (decodeGroup strict) items
  | _ => .error "cannot unmarshal node into group list"

/-- The YAML keys of a namespace document. -/
def namespaceKeys : List String := ["namespace", "groups"]

/-- Decode a whole document as a `rules.RuleNamespace` (a mapping with
`namespace` and `groups` keys; a sequence document is a type error). -/
def decodeNamespace (strict : Bool) (y : Yaml) : Except String RuleNamespace :=
  match y with
  | Yaml.null => .ok ⟨"", []⟩
  | Yaml.map kvs =>
    if strict && kvs.any (fun kv => !decide (kv.1 ∈ namespaceKeys)) then
      .error "field not found in type rules.RuleNamespace"
    else
      match decodeStr (lookupStr kvs "namespace") with
      | .error e => .error e
      | .ok nsName =>
      match lookupStr kvs "groups" with
      | none => .ok ⟨nsName, []⟩
      | some g =>
        match decodeGroupListDoc strict g with
        | .error e => .error e
        | .ok groups => .ok ⟨nsName, groups⟩
  | _ => .error "cannot unmarshal node into rules.RuleNamespace"

/-- Modelled from the spec: `ruler.ValidateGroups` (grafana/loki), not part of this
repository.  The external expression validator `v` accepts a rule expression and
returns pass/fail; validation visits every rule of every group and aggregates all
failing rules instead of stopping at the first. -/
def validateGroups (v : String → Bool) (gs : List RuleGroup) : List String :=
  ((gs.map (fun g => g.rules)).flatten).filterMap
    (fun r => if v r.expr then none else some ("invalid expression: " ++ r.expr))

/-- The per-document decode loop of `getRuleNamespaceFromYAML`: decode each document
with `KnownFields(true)` and validate its groups, collecting the namespaces. -/
def parseLoop (v : String → Bool) : List Yaml → Except String (List RuleNamespace)
  | [] => .ok []
  | d :: ds =>
    match decodeNamespace true d with
    | .error e => .error e
    | .ok ns =>
      match validateGroups v ns.groups with
      | [] =>
        match parseLoop v ds with
        | .error e => .error e
        | .ok rest => .ok (ns :: rest)
      | msgs => .error ("The following errors were encountered validating rule groups: "
          ++ String.intercalate ", " msgs)

/-- `getRuleNamespaceFromYAML`: parse a YAML stream into exactly one namespace,
rejecting unknown fields, invalid rule groups, multi-document input and empty input. -/
def getRuleNamespaceFromYAML (v : String → Bool) (docs : List Yaml) :
    Except String RuleNamespace :=
  match parseLoop v docs with
  | .error e => .error e
  | .ok nss =>
    if nss.length > 1 then
      .error "namespace definition contains more than one namespace which is not supported"
    else
      match nss with
      | [ns] => .ok ns
      | _ => .error "no namespace definition found"

/-- Modelled from the spec: a single rule under `RuleNamespace.LintExpressions`
(grafana/cortex-tools, not part of this repository).  The external linter `l`
returns the normalized expression text on success and `none` on failure; the
rule's expression is replaced by the normalized text. -/
def lintRule (l : String → Option String) (r : Rule) : Except String Rule :=
  match l r.expr with
  | none => .error ("could not parse expression: " ++ r.expr)
  | some e => .ok { r with expr := e }

/-- Lint every rule of a group, rewriting expressions to their normalized text. -/
def lintGroup (l : String → Option String) (g : RuleGroup) : Except String RuleGroup :=
  match mapME (lintRule l) g.rules with
  | .error e => .error e
  | .ok rs => .ok { g with rules := rs }

/-- Modelled from the spec: `RuleNamespace.LintExpressions` over a whole namespace
(`lintRuleNamespace` discards the counts and keeps the error; the expression
rewrite is visible to the caller through the shared rule slices). -/
def lintNamespace (l : String → Option String) (ns : RuleNamespace) :
    Except String RuleNamespace :=
  match mapME (lintGroup l) ns.groups with
  | .error e => .error e
  | .ok gs => .ok { ns with groups := gs }

/-- Structurally recursive lexicographic comparison of character lists (for
UTF-8, byte order and codepoint order coincide). -/
def charsLe : List Char → List Char → Bool
  | [], _ => true
  | _ :: _, [] => false
  | a :: as, b :: bs => if a < b then true else if b < a then false else charsLe as bs

/-- Computable string comparison agreeing with the lexicographic string order. -/
def strLeB (s₁ s₂ : String) : Bool := charsLe s₁.data s₂.data

theorem charsLe_iff : ∀ as bs : List Char, charsLe as bs = true ↔ ¬ List.lt bs as := by
  intro as
  induction as with
  | nil =>
    intro bs
    simp only [charsLe, true_iff]
    intro hlt
    cases bs with
    | nil => cases hlt
    | cons b bs => cases hlt
  | cons a as ih =>
    intro bs
    cases bs with
    | nil =>
      simp only [charsLe]
      constructor
      · intro h; cases h
      · intro h; exact absurd (List.lt.nil a as) h
    | cons b bs =>
      by_cases hab : a < b
      · have hba : ¬ b < a := lt_asymm hab
        simp only [charsLe, hab, if_pos, if_true]
        constructor
        · intro _ hlt
          cases hlt with
          | head _ _ h => exact hba h
          | tail h₁ h₂ h₃ => exact h₂ hab
        · intro _; trivial
      · by_cases hba : b < a
        · simp only [charsLe, hab, if_neg, if_false, hba, if_pos, if_true]
          constructor
          · intro h; cases h
          · intro h; exact absurd (List.lt.head bs as hba) h
        · have := ih bs
          simp only [charsLe, hab, hba, if_neg, if_false, this]
          constructor
          · intro h hlt
            cases hlt with
            | head _ _ h' => exact hba h'
            | tail h₁ h₂ h₃ => exact h h₃
          · intro h hlt
            exact h (List.lt.tail hba hab hlt)

theorem strLeB_iff (s₁ s₂ : String) : strLeB s₁ s₂ = true ↔ s₁ ≤ s₂ := by
  rw [← not_lt, String.lt_iff_toList_lt]
  show strLeB s₁ s₂ = true ↔ ¬ List.Lex (· < ·) s₂.data s₁.data
  rw [← List.lt_iff_lex_lt]
  exact charsLe_iff s₁.data s₂.data

/-- The group ordering of `NormalizeNamespaceYAML`: ascending by group name. -/
def groupLe (g₁ g₂ : RuleGroup) : Prop := g₁.name ≤ g₂.name

/-- The rule ordering of `NormalizeNamespaceYAML`: ascending by expression text. -/
def ruleLe (r₁ r₂ : Rule) : Prop := r₁.expr ≤ r₂.expr

instance : DecidableRel groupLe :=
  fun a b => decidable_of_iff (strLeB a.name b.name = true) (strLeB_iff a.name b.name)

instance : DecidableRel ruleLe :=
  fun a b => decidable_of_iff (strLeB a.expr b.expr = true) (strLeB_iff a.expr b.expr)

instance : IsTotal RuleGroup groupLe := ⟨fun a b => le_total a.name b.name⟩

instance : IsTrans RuleGroup groupLe := ⟨fun _ _ _ h₁ h₂ => le_trans h₁ h₂⟩

instance : IsTotal Rule ruleLe := ⟨fun a b => le_total a.expr b.expr⟩

instance : IsTrans Rule ruleLe := ⟨fun _ _ _ h₁ h₂ => le_trans h₁ h₂⟩

/-- Sort the rules of one group by expression text. -/
def sortRules (g : RuleGroup) : RuleGroup :=
  { g with rules := g.rules.insertionSort ruleLe }

/-- The canonical group list: groups sorted by name, then each group's rules
sorted by expression text (the two `sort.Slice` calls of `NormalizeNamespaceYAML`). -/
def sortedGroups (gs : List RuleGroup) : List RuleGroup :=
  (gs.insertionSort groupLe).map sortRules

/-- Marshal a string-to-string mapping back to a YAML node. -/
def marshalStrMap (kvs : List (String × String)) : Yaml :=
  Yaml.map (kvs.map (fun kv => (kv.1, Yaml.scalar kv.2)))

/-- Marshal one rule, omitting empty optional fields (`omitempty` tags). -/
def marshalRuleYaml (r : Rule) : Yaml :=
  Yaml.map
    ((if r.record = "" then [] else [("record", Yaml.scalar r.record)])
      ++ (if r.alert = "" then [] else [("alert", Yaml.scalar r.alert)])
      ++ [("expr", Yaml.scalar r.expr)]
      ++ (if r.forD = "" then [] else [("for", Yaml.scalar r.forD)])
      ++ (if r.labels = [] then [] else [("labels", marshalStrMap r.labels)])
      ++ (if r.annots = [] then [] else [("annotations", marshalStrMap r.annots)]))

/-- Marshal a rule list; a nil slice marshals to null. -/
def marshalRuleList (rs : List Rule) : Yaml :=
  match rs with
  | [] => Yaml.null
  | _ => Yaml.seq (rs.map marshalRuleYaml)

/-- Marshal one rule group. -/
def marshalGroupYaml (g : RuleGroup) : Yaml :=
  Yaml.map
    ([("name", Yaml.scalar g.name)]
      ++ (if g.interval = "" then [] else [("interval", Yaml.scalar g.interval)])
      ++ [("rules", marshalRuleList g.rules)]
      ++ (if g.rwConfigs = [] then []
          else [("remote_write", Yaml.seq (g.rwConfigs.map Yaml.scalar))]))

/-- Marshal a group list as `yaml.Marshal(ruleNamespace.Groups)` does: a bare
top-level sequence, with the nil slice marshalling to null. -/
def marshalGroupsYaml (gs : List RuleGroup) : Yaml :=
  match gs with
  | [] => Yaml.null
  | _ => Yaml.seq (gs.map marshalGroupYaml)

/-- Concatenate a list of strings. -/
def concatAll (ss : List String) : String := ss.foldr (fun a b => a ++ b) ""

/-- Render a list of lines as one YAML sequence entry: the first line after the
dash marker, continuation lines at the same depth. -/
def encodeEntryLines (dash cont : String) : List String → String
  | [] => ""
  | l :: ls => dash ++ l ++ "\n" ++ concatAll (ls.map (fun s => cont ++ s ++ "\n"))

/-- The text lines of one rule (relative indentation). -/
def ruleLines (r : Rule) : List String :=
  (if r.record = "" then [] else ["record: " ++ r.record])
    ++ (if r.alert = "" then [] else ["alert: " ++ r.alert])
    ++ ["expr: " ++ r.expr]
    ++ (if r.forD = "" then [] else ["for: " ++ r.forD])
    ++ (if r.labels = [] then []
        else "labels:" :: r.labels.map (fun kv => "  " ++ kv.1 ++ ": " ++ kv.2))
    ++ (if r.annots = [] then []
        else "annotations:" :: r.annots.map (fun kv => "  " ++ kv.1 ++ ": " ++ kv.2))

/-- Emit one group in block style with 4-space sequence indentation. -/
def encodeGroup (g : RuleGroup) : String :=
  "- name: " ++ g.name ++ "\n"
    ++ (if g.interval = "" then "" else "  interval: " ++ g.interval ++ "\n")
    ++ (match g.rules with
        | [] => "  rules: null\n"
        | rs => "  rules:\n"
            ++ concatAll (rs.map (fun r => encodeEntryLines "    - " "      " (ruleLines r))))
    ++ (if g.rwConfigs = [] then ""
        else "  remote_write:\n" ++ concatAll (g.rwConfigs.map (fun s => "    - " ++ s ++ "\n")))

/-- The emitted text of the canonical group list (the stand-in for
`yaml.Marshal(ruleNamespace.Groups)`); always ends with a newline, and a nil
group slice emits the null document. -/
def encodeGroups (gs : List RuleGroup) : String :=
  match gs with
  | [] => "null\n"
  | _ => concatAll (gs.map encodeGroup)

/-- Strip a single trailing newline byte, as `NormalizeNamespaceYAML` does before
hashing or returning. -/
def stripNL (s : String) : String :=
  match s.data.getLast? with
  | some c => if c = '\n' then String.mk s.data.dropLast else s
  | none => s

/-- A string's bytes (ASCII range, as produced by the emitter). -/
def strBytes (s : String) : List Nat := s.data.map Char.toNat

/-- Truncation to 32 bits. -/
def w32 (n : Nat) : Nat := n % 4294967296

/-- 32-bit right rotation (operands kept below `2 ^ 32`). -/
def rotr (n x : Nat) : Nat := w32 (x / 2 ^ n + x % 2 ^ n * 2 ^ (32 - n))

/-- 32-bit bitwise complement. -/
def not32 (x : Nat) : Nat := 4294967295 - x

def ch32 (x y z : Nat) : Nat := (x &&& y) ^^^ (not32 x &&& z)

def maj32 (x y z : Nat) : Nat := (x &&& y) ^^^ (x &&& z) ^^^ (y &&& z)

def bsig0 (x : Nat) : Nat := rotr 2 x ^^^ rotr 13 x ^^^ rotr 22 x

def bsig1 (x : Nat) : Nat := rotr 6 x ^^^ rotr 11 x ^^^ rotr 25 x

def ssig0 (x : Nat) : Nat := rotr 7 x ^^^ rotr 18 x ^^^ (x / 2 ^ 3)

def ssig1 (x : Nat) : Nat := rotr 17 x ^^^ rotr 19 x ^^^ (x / 2 ^ 10)

/-- The SHA-256 round constants (decimal). -/
def shaK : List Nat :=
  [1116352408, 1899447441, 3049323471, 3921009573, 961987163, 1508970993, 2453635748,
   2870763221, 3624381080, 310598401, 607225278, 1426881987, 1925078388, 2162078206,
   2614888103, 3248222580, 3835390401, 4022224774, 264347078, 604807628, 770255983,
   1249150122, 1555081692, 1996064986, 2554220882, 2821834349, 2952996808, 3210313671,
   3336571891, 3584528711, 113926993, 338241895, 666307205, 773529912, 1294757372,
   1396182291, 1695183700, 1986661051, 2177026350, 2456956037, 2730485921, 2820302411,
   3259730800, 3345764771, 3516065817, 3600352804, 4094571909, 275423344, 430227734,
   506948616, 659060556, 883997877, 958139571, 1322822218, 1537002063, 1747873779,
   1955562222, 2024104815, 2227730452, 2361852424, 2428436474, 2756734187, 3204031479,
   3329325298]

/-- The big-endian 64-bit encoding of the message bit length. -/
def lenBytes (n : Nat) : List Nat :=
  [n / 2 ^ 56 % 256, n / 2 ^ 48 % 256, n / 2 ^ 40 % 256, n / 2 ^ 32 % 256,
   n / 2 ^ 24 % 256, n / 2 ^ 16 % 256, n / 2 ^ 8 % 256, n % 256]

/-- SHA-256 message padding. -/
def padMessage (m : List Nat) : List Nat :=
  m ++ 0x80 :: List.replicate ((120 - (m.length + 1) % 64) % 64) 0 ++ lenBytes (8 * m.length)

/-- Split a byte list into 64-byte blocks (fuel-structured for kernel reduction). -/
def toBlocksAux : Nat → List Nat → List (List Nat)
  | 0, _ => []
  | _, [] => []
  | fuel + 1, m => m.take 64 :: toBlocksAux fuel (m.drop 64)

def toBlocks (m : List Nat) : List (List Nat) := toBlocksAux m.length m

/-- Group 4 bytes into one big-endian 32-bit word. -/
def toWordsAux : Nat → List Nat → List Nat
  | 0, _ => []
  | _, [] => []
  | fuel + 1, m =>
    (m.getD 0 0 * 2 ^ 24 + m.getD 1 0 * 2 ^ 16 + m.getD 2 0 * 2 ^ 8 + m.getD 3 0)
      :: toWordsAux fuel (m.drop 4)

def toWords (m : List Nat) : List Nat := toWordsAux m.length m

/-- Extend 16 words to the 64-word message schedule. -/
def schedule (ws : List Nat) : List Nat :=
  (List.range 48).foldl
    (fun acc _ =>
      acc ++ [w32 (ssig1 (acc.getD (acc.length - 2) 0) + acc.getD (acc.length - 7) 0
        + ssig0 (acc.getD (acc.length - 15) 0) + acc.getD (acc.length - 16) 0)])
    ws

/-- The eight 32-bit working variables of the compression function. -/
structure Hstate where
  a : Nat
  b : Nat
  c : Nat
  d : Nat
  e : Nat
  f : Nat
  g : Nat
  h : Nat

/-- The SHA-256 initial hash value (decimal). -/
def shaH0 : Hstate :=
  ⟨1779033703, 3144134277, 1013904242, 2773480762, 1359893119, 2600822924, 528734635,
   1541459225⟩

/-- One compression round. -/
def shaRound (st : Hstate) (kw : Nat × Nat) : Hstate :=
  let t1 := w32 (st.h + bsig1 st.e + ch32 st.e st.f st.g + kw.1 + kw.2)
  let t2 := w32 (bsig0 st.a + maj32 st.a st.b st.c)
  ⟨w32 (t1 + t2), st.a, st.b, st.c, w32 (st.d + t1), st.e, st.f, st.g⟩

/-- Compress one 64-byte block into the running hash value. -/
def shaBlock (st : Hstate) (block : List Nat) : Hstate :=
  let w := schedule (toWords block)
  let r := (shaK.zip w).foldl shaRound st
  ⟨w32 (st.a + r.a), w32 (st.b + r.b), w32 (st.c + r.c), w32 (st.d + r.d),
   w32 (st.e + r.e), w32 (st.f + r.f), w32 (st.g + r.g), w32 (st.h + r.h)⟩

/-- One 32-bit word as four big-endian bytes. -/
def wordBytes (w : Nat) : List Nat :=
  [w / 2 ^ 24 % 256, w / 2 ^ 16 % 256, w / 2 ^ 8 % 256, w % 256]

/-- The 32-byte SHA-256 digest of a byte string. -/
def sha256 (m : List Nat) : List Nat :=
  let st := (toBlocks (padMessage m)).foldl shaBlock shaH0
  wordBytes st.a ++ wordBytes st.b ++ wordBytes st.c ++ wordBytes st.d
    ++ wordBytes st.e ++ wordBytes st.f ++ wordBytes st.g ++ wordBytes st.h

/-- The sixteen lowercase hex characters. -/
def hexCharList : List Char := "0123456789abcdef".data

/-- One hex nibble as a lowercase character. -/
def nibbleChar (n : Nat) : Char := hexCharList.getD (n % 16) '0'

/-- Two lowercase hex characters per byte. -/
def hexPairs : List Nat → List Char
  | [] => []
  | b :: bs => nibbleChar (b / 16) :: nibbleChar b :: hexPairs bs

/-- The `%x` rendering of a digest: lowercase hex. -/
def hexDigest (bs : List Nat) : String := String.mk (hexPairs bs)

/-- The zero value `rules.RuleNamespace` left behind when `getRuleNamespaceFromYAML`
returns an error (its result variable is the zero value on every error path). -/
def zeroNamespace : RuleNamespace := ⟨"", []⟩

/-- `NormalizeNamespaceYAML` (the `config_yaml` StateFunc).  The parse error is
discarded (no error channel), leaving the zero-value namespace; a lint error is a
`panic`, modelled as `none`; otherwise groups are sorted by name, rules by
expression, the groups are re-marshalled, the single trailing newline is stripped,
and the result is either the canonical text or, when `storeHash` (the
`store_rules_sha256` flag) is set, the lowercase-hex SHA-256 of those bytes. -/
def NormalizeNamespaceYAML (storeHash : Bool) (v : String → Bool)
    (l : String → Option String) (docs : List Yaml) : Option String :=
  let ns :=
    match getRuleNamespaceFromYAML v docs with
    | .ok ns => ns
    | .error _ => zeroNamespace
  match lintNamespace l ns with
  | .error _ => none
  | .ok ns' =>
    let s := stripNL (encodeGroups (sortedGroups ns'.groups))
    some (if storeHash then hexDigest (sha256 (strBytes s)) else s)

/-- `getRuleGroupsFromYaml`: the differ's parser.  `yaml.Unmarshal` decodes the
first document of the stream into a bare `[]rwrulefmt.RuleGroup` without
`KnownFields`; empty input leaves the nil slice. -/
def getRuleGroupsFromYaml (docs : List Yaml) : Except String (List RuleGroup) :=
  match docs with
  | [] => .ok []
  | d :: _ => decodeGroupListDoc false d

/-- Remove the first occurrence of an element. -/
def removeFirst {α : Type} [DecidableEq α] (x : α) : List α → List α
  | [] => []
  | y :: ys => if x = y then ys else y :: removeFirst x ys

/-- Multiset equality of two lists. -/
def multisetEqB {α : Type} [DecidableEq α] : List α → List α → Bool
  | [], ys => ys.isEmpty
  | x :: xs, ys => if x ∈ ys then multisetEqB xs (removeFirst x ys) else false

/-- Group equivalence under the differ: same name, interval and remote-write
configs, and the same rules as an unordered collection of full rule content. -/
def ruleGroupEquivB (og ng : RuleGroup) : Bool :=
  decide (og.name = ng.name) && decide (og.interval = ng.interval)
    && decide (og.rwConfigs = ng.rwConfigs) && multisetEqB og.rules ng.rules

/-- Modelled from the spec: `rules.CompareNamespaces` (grafana/cortex-tools), not
part of this repository.  Its result is `Unchanged` iff the two group sets are
equal as unordered collections, matching groups by name (the spec expects group
names to be unique within a namespace) and comparing each matched pair's rule
sets as unordered collections of fully-qualified rule content. -/
def compareNamespacesUnchanged (old new : List RuleGroup) : Bool :=
  decide (old.length = new.length)
    && new.all (fun ng =>
      match old.find? (fun og => decide (og.name = ng.name)) with
      | some og => ruleGroupEquivB og ng
      | none => false)

/-- `diffNamespaceYAML` (the `config_yaml` DiffSuppressFunc): if either side fails
to unmarshal, report a difference (`false`); otherwise suppress the diff iff the
comparison is `Unchanged`. -/
def diffNamespaceYAML (oldV newV : List Yaml) : Bool :=
  match getRuleGroupsFromYaml oldV with
  | .error _ => false
  | .ok og =>
    match getRuleGroupsFromYaml newV with
    | .error _ => false
    | .ok ng => compareNamespacesUnchanged og ng

/-- A call the resource operations issue against the ruler client. -/
inductive RemoteCall where
  | createGroup (ns : String) (g : RuleGroup)
  | deleteGroup (ns : String) (gName : String)
  | listRules (ns : String)
deriving DecidableEq, Repr

def isCreateCall : RemoteCall → Bool
  | RemoteCall.createGroup _ _ => true
  | _ => false

def isDeleteCall : RemoteCall → Bool
  | RemoteCall.deleteGroup _ _ => true
  | _ => false

/-- The `CortexRuleClient` interface; `σ` is the client's private state, each
method returns the new state and the call's outcome.  `listRules` returns the
namespace-to-groups map of `ListRules`. -/
structure ClientOps (σ : Type) where
  createRuleGroup : σ → String → RuleGroup → σ × Option String
  deleteRuleGroup : σ → String → String → σ × Option String
  listRules : σ → String → σ × Except String (List (String × List RuleGroup))

/-- The slice of `schema.ResourceData` the resource operations touch: the
`namespace` and `config_yaml` arguments, the resource id (`SetId`), and the
normalized `config_yaml` value written back to state (`d.Set`). -/
structure ResData where
  nsName : String
  configYaml : List Yaml
  rid : String
  stored : Option String

/-- An operation's outcome: a diagnostics error, or the process aborting
(`panic` inside `NormalizeNamespaceYAML`). -/
inductive OpErr where
  | diagErr (msg : String)
  | crash
deriving DecidableEq, Repr

/-- The result of one resource operation: final client state, final resource
data, the remote calls issued in order, and the outcome (`none` is success). -/
structure OpOut (σ : Type) where
  cli : σ
  d : ResData
  calls : List RemoteCall
  err : Option OpErr

/-- Modelled from the spec: the repository's `hash` helper (not under src/) used by
`createRuleNamespace` to derive the resource id from the namespace name. -/
def hashId (s : String) : String := hexDigest (sha256 (strBytes s))

/-- The upsert loop of `createRuleNamespace`: `CreateRuleGroup` for each group in
order, aborting on the first failure. -/
def applyGroups {σ : Type} (c : ClientOps σ) (s : σ) (ns : String) :
    List RuleGroup → σ × List RemoteCall × Option String
  | [] => (s, [], none)
  | g :: gs =>
    match c.createRuleGroup s ns g with
    | (s', some e) => (s', [RemoteCall.createGroup ns g], some e)
    | (s', none) =>
      match applyGroups c s' ns gs with
      | (s'', calls, r) => (s'', RemoteCall.createGroup ns g :: calls, r)

/-- `readRuleNamespace`: list the remote groups; the "requested resource not
found" sentinel clears the id instead of failing; otherwise the remote map's
namespace key is renamed to `groups`, re-marshalled, normalized and written to
state. -/
def readRuleNamespace {σ : Type} (c : ClientOps σ) (storeHash : Bool)
    (v : String → Bool) (l : String → Option String) (s : σ) (d : ResData) : OpOut σ :=
  match c.listRules s d.nsName with
  | (s', .error e) =>
    if e = "requested resource not found" then
      ⟨s', { d with rid := "" }, [RemoteCall.listRules d.nsName], none⟩
    else
      ⟨s', d, [RemoteCall.listRules d.nsName], some (OpErr.diagErr e)⟩
  | (s', .ok m) =>
    let gs := (lookupStr m d.nsName).getD []
    match NormalizeNamespaceYAML storeHash v l [Yaml.map [("groups", marshalGroupsYaml gs)]] with
    | none => ⟨s', d, [RemoteCall.listRules d.nsName], some OpErr.crash⟩
    | some str => ⟨s', { d with stored := some str }, [RemoteCall.listRules d.nsName], none⟩

/-- `createRuleNamespace`: parse, lint (both fatal on failure, before any remote
call), upsert every group, set the id, then read back. -/
def createRuleNamespace {σ : Type} (c : ClientOps σ) (storeHash : Bool)
    (v : String → Bool) (l : String → Option String) (s : σ) (d : ResData) : OpOut σ :=
  match getRuleNamespaceFromYAML v d.configYaml with
  | .error e => ⟨s, d, [], some (OpErr.diagErr e)⟩
  | .ok ns =>
    match lintNamespace l ns with
    | .error e => ⟨s, d, [], some (OpErr.diagErr e)⟩
    | .ok ns' =>
      match applyGroups c s d.nsName ns'.groups with
      | (s₁, calls, some e) => ⟨s₁, d, calls, some (OpErr.diagErr e)⟩
      | (s₁, calls, none) =>
        let out := readRuleNamespace c storeHash v l s₁ { d with rid := hashId d.nsName }
        ⟨out.cli, out.d, calls ++ out.calls, out.err⟩

/-- `getRuleNamespace` (the helper): `ListRules` plus the namespace-key lookup
(the missing key yields the nil slice). -/
def getRuleNamespaceOp {σ : Type} (c : ClientOps σ) (s : σ) (ns : String) :
    σ × Except String (List RuleGroup)  :=
  match c.listRules s ns with
  | (s', .error e) => (s', .error e)
  | (s', .ok m) => (s', .ok ((lookupStr m ns).getD []))

/-- The deletion loop of `updateRuleNamespace`.  The source guards the abort with
the stale `err` variable (always nil at that point) instead of `errRaw`, so a
failed `DeleteRuleGroup` does not abort the loop. -/
def deleteAbsent {σ : Type} (c : ClientOps σ) (s : σ) (ns : String) :
    List String → σ × List RemoteCall
  | [] => (s, [])
  | n :: rest =>
    match c.deleteRuleGroup s ns n with
    | (s', _) =>
      match deleteAbsent c s' ns rest with
      | (s'', calls) => (s'', RemoteCall.deleteGroup ns n :: calls)

/-- `updateRuleNamespace`: run `createRuleNamespace`, re-parse and re-lint the
configuration, list the remote groups, and delete every remote group whose name
is absent from the desired group names. -/
def updateRuleNamespace {σ : Type} (c : ClientOps σ) (storeHash : Bool)
    (v : String → Bool) (l : String → Option String) (s : σ) (d : ResData) : OpOut σ :=
  let out := createRuleNamespace c storeHash v l s d
  match out.err with
  | some _ => out
  | none =>
    match getRuleNamespaceFromYAML v d.configYaml with
    | .error e => ⟨out.cli, out.d, out.calls, some (OpErr.diagErr e)⟩
    | .ok ns =>
      match lintNamespace l ns with
      | .error e => ⟨out.cli, out.d, out.calls, some (OpErr.diagErr e)⟩
      | .ok ns' =>
        let desired := ns'.groups.map (fun g => g.name)
        match getRuleNamespaceOp c out.cli d.nsName with
        | (s₂, .error e) =>
          ⟨s₂, out.d, out.calls ++ [RemoteCall.listRules d.nsName], some (OpErr.diagErr e)⟩
        | (s₂, .ok current) =>
          let toDelete := (current.map (fun g => g.name)).filter (fun n => !decide (n ∈ desired))
          match deleteAbsent c s₂ d.nsName toDelete with
          | (s₃, dcalls) =>
            ⟨s₃, out.d, out.calls ++ RemoteCall.listRules d.nsName :: dcalls, none⟩

/-- The mock client's state (`MockCortexRuleClient.namespaces`), with group lists
in insertion order. -/
abbrev MockState : Type := List (String × List RuleGroup)

/-- Replace the value stored under a key (no-op when the key is absent). -/
def setEntry {α : Type} (st : List (String × α)) (k : String) (v : α) : List (String × α) :=
  st.map (fun e => if e.1 = k then (k, v) else e)

/-- `MockCortexRuleClient.DeleteRuleGroup`: filter the group out, store the
shortened list even when nothing matched, and report "requested resource not
found" when the namespace or group is absent. -/
def mockDeleteRuleGroup (st : MockState) (ns gName : String) : MockState × Option String :=
  match lookupStr st ns with
  | none => (st, some "requested resource not found")
  | some gs =>
    let st' := setEntry st ns (gs.filter (fun g => !decide (g.name = gName)))
    if gs.any (fun g => decide (g.name = gName)) then (st', none)
    else (st', some "requested resource not found")

/-- `MockCortexRuleClient.CreateRuleGroup`: delete-then-append upsert; the
`LintExpressions` call on the stored namespace rewrites its expressions (through
the shared rule slices), best effort. -/
def mockCreateRuleGroup (l : String → Option String) (st : MockState) (ns : String)
    (g : RuleGroup) : MockState × Option String :=
  let st₁ := (mockDeleteRuleGroup st ns g.name).1
  let st₂ :=
    match lookupStr st₁ ns with
    | some gs => setEntry st₁ ns (gs ++ [g])
    | none => st₁ ++ [(ns, [g])]
  let linted := ((lookupStr st₂ ns).getD []).map (fun g' =>
    { g' with rules := g'.rules.map (fun r => { r with expr := (l r.expr).getD r.expr }) })
  (setEntry st₂ ns linted, none)

/-- `MockCortexRuleClient.ListRules`. -/
def mockListRules (st : MockState) (ns : String) :
    MockState × Except String (List (String × List RuleGroup)) :=
  match lookupStr st ns with
  | some gs => (st, .ok [(ns, gs)])
  | none => (st, .error "requested resource not found")

/-- The mock client of `mock_cortexruleclient.go` as a `ClientOps`. -/
def mockClient (l : String → Option String) : ClientOps MockState :=
  ⟨mockCreateRuleGroup l, mockDeleteRuleGroup, mockListRules⟩

/-- The document tree of the canonical output text of `NormalizeNamespaceYAML` in
non-hash mode: under the assumed YAML library, re-parsing the emitted canonical
text yields exactly the tree it was emitted from, so applying the normalizer to
its own output is applying it to this document. -/
def canonicalTree (v : String → Bool) (l : String → Option String)
    (docs : List Yaml) : Option Yaml :=
  let ns :=
    match getRuleNamespaceFromYAML v docs with
    | .ok ns => ns
    | .error _ => zeroNamespace
  match lintNamespace l ns with
  | .error _ => none
  | .ok ns' => some (marshalGroupsYaml (sortedGroups ns'.groups))

/-- Pointwise group equivalence up to reordering of each group's rules. -/
def groupPermRel (g g' : RuleGroup) : Prop :=
  g.name = g'.name ∧ g.interval = g'.interval ∧ g.rwConfigs = g'.rwConfigs
    ∧ List.Perm g.rules g'.rules

/-- An expression validator that accepts every expression (an instantiation of
the external validator for concrete runs). -/
def vAll : String → Bool := fun _ => true

/-- A linter that accepts every expression and leaves it unchanged. -/
def lId : String → Option String := fun e => some e

/-- A linter that rejects every expression. -/
def lNone : String → Option String := fun _ => none

def ruleA : Rule := ⟨"", "AlertA", "exprA", "3m", [("team", "sre")], []⟩

def ruleA2 : Rule := ⟨"", "AlertA2", "exprA2", "", [], []⟩

def ruleB : Rule := ⟨"", "AlertB", "exprB", "", [], []⟩

def ruleC : Rule := ⟨"", "AlertC", "exprC", "", [], []⟩

def gA : RuleGroup := ⟨"A", "", [ruleA, ruleA2], []⟩

/-- `gA` with its rules transposed. -/
def gAp : RuleGroup := ⟨"A", "", [ruleA2, ruleA], []⟩

def gB : RuleGroup := ⟨"B", "", [ruleB], []⟩

def gC : RuleGroup := ⟨"C", "", [ruleC], []⟩

/-- The entries of a configuration document in the documented format: a top-level
mapping with `namespace` and `groups` keys, desiring groups `A` and `C`. -/
def confEntriesAC : List (String × Yaml) :=
  [("namespace", Yaml.scalar "gns"),
   ("groups", Yaml.seq [marshalGroupYaml gA, marshalGroupYaml gC])]

def confDocAC : Yaml := Yaml.map confEntriesAC

/-- What `confDocAC` parses to. -/
def nsAC : RuleNamespace := ⟨"gns", [gA, gC]⟩

/-- A configuration document desiring only group `A`. -/
def confDocA : Yaml :=
  Yaml.map [("namespace", Yaml.scalar "gns"), ("groups", Yaml.seq [marshalGroupYaml gA])]

/-- The mock client's state with remote groups `A`, `B`, `C` under `gns`. -/
def st0 : MockState := [("gns", [gA, gB, gC])]

/-- Resource data for namespace `gns` configured with `confDocAC`. -/
def d0 : ResData := ⟨"gns", [confDocAC], "", none⟩

/-- Resource data for namespace `gns` configured with `confDocA`. -/
def dOnlyA : ResData := ⟨"gns", [confDocA], "", none⟩

/-- A client whose deletes always fail, whose creates succeed, and whose listing
reports remote groups `A` and `B`. -/
def failDeleteClient : ClientOps Unit :=
  ⟨fun _ _ _ => ((), none),
   fun _ _ _ => ((), some "remote failure"),
   fun _ _ => ((), .ok [("gns", [gA, gB])])⟩

theorem mapME_map_ok {α β : Type} (f : β → Except String α) (g : α → β) :
    ∀ (l : List α), (∀ a ∈ l, f (g a) = .ok a) → mapME f (l.map g) = .ok l := by
  intro l
  induction l with
  | nil => intro _; rfl
  | cons a as ih =>
    intro h
    have ha := h a (List.mem_cons_self a as)
    have hrest := ih (fun b hb => h b (List.mem_cons_of_mem a hb))
    simp [mapME, ha, hrest]

theorem decodeStrMap_marshal (kvs : List (String × String)) :
    decodeStrMap (some (marshalStrMap kvs)) = .ok kvs := by
  have h := mapME_map_ok
    (fun kv : String × Yaml =>
      match kv.2 with
      | Yaml.scalar s => Except.ok (kv.1, s)
      | Yaml.null => Except.ok (kv.1, "")
      | _ => Except.error "cannot unmarshal node into string")
    (fun kv : String × String => (kv.1, Yaml.scalar kv.2)) kvs (fun a _ => rfl)
  simpa [decodeStrMap, marshalStrMap] using h

theorem decodeStrMap_none : decodeStrMap none = .ok [] := rfl

theorem decodeRule_marshal (strict : Bool) (r : Rule) :
    decodeRule strict (marshalRuleYaml r) = .ok r := by
  obtain ⟨rec, al, ex, fo, la, an⟩ := r
  by_cases h1 : rec = "" <;> by_cases h2 : al = "" <;> by_cases h3 : fo = "" <;>
    by_cases h4 : la = ([] : List (String × String)) <;>
    by_cases h5 : an = ([] : List (String × String)) <;>
    simp [decodeRule, marshalRuleYaml, h1, h2, h3, h4, h5, lookupStr, decodeStr,
      decodeStrMap_marshal, decodeStrMap_none, ruleKeys]

theorem decodeRuleList_marshal (strict : Bool) (rs : List Rule) :
    decodeRuleList strict (some (marshalRuleList rs)) = .ok rs := by
  cases rs with
  | nil => rfl
  | cons r rest =>
    have h := mapME_map_ok (decodeRule strict) marshalRuleYaml (r :: rest)
      (fun a _ => decodeRule_marshal strict a)
    simpa [decodeRuleList, marshalRuleList] using h

theorem decodeRwConfigs_marshal (ws : List String) :
    decodeRwConfigs (some (Yaml.seq (ws.map Yaml.scalar))) = .ok ws := by
  have h := mapME_map_ok
    (fun y : Yaml =>
      match y with
      | Yaml.scalar s => Except.ok s
      | _ => Except.error "cannot unmarshal node into remote-write config")
    Yaml.scalar ws (fun a _ => rfl)
  simpa [decodeRwConfigs] using h

theorem decodeRwConfigs_none : decodeRwConfigs none = .ok [] := rfl

theorem decodeGroup_marshal (strict : Bool) (g : RuleGroup) :
    decodeGroup strict (marshalGroupYaml g) = .ok g := by
  obtain ⟨n, iv, rs, ws⟩ := g
  by_cases h1 : iv = "" <;> by_cases h2 : ws = ([] : List String) <;>
    simp [decodeGroup, marshalGroupYaml, h1, h2, lookupStr, decodeStr,
      decodeRuleList_marshal, decodeRwConfigs_marshal, decodeRwConfigs_none, groupKeys]

theorem decodeGroupListDoc_marshal (strict : Bool) (gs : List RuleGroup) :
    decodeGroupListDoc strict (marshalGroupsYaml gs) = .ok gs := by
  cases gs with
  | nil => rfl
  | cons g rest =>
    have h := mapME_map_ok (decodeGroup strict) marshalGroupYaml (g :: rest)
      (fun a _ => decodeGroup_marshal strict a)
    simpa [decodeGroupListDoc, marshalGroupsYaml] using h

theorem getRuleGroupsFromYaml_marshal (gs : List RuleGroup) :
    getRuleGroupsFromYaml [marshalGroupsYaml gs] = .ok gs := by
  simp [getRuleGroupsFromYaml, decodeGroupListDoc_marshal]

theorem perm_removeFirst {α : Type} [DecidableEq α] (x : α) :
    ∀ (ys : List α), x ∈ ys → List.Perm ys (x :: removeFirst x ys)
  | [], h => absurd h (List.not_mem_nil x)
  | y :: ys, h => by
    by_cases hxy : x = y
    · subst hxy
      simp [removeFirst]
    · have hmem : x ∈ ys := by
        rcases List.mem_cons.mp h with h' | h'
        · exact absurd h'.symm (Ne.symm hxy)
        · exact h'
      have ih := perm_removeFirst x ys hmem
      have h1 : List.Perm (y :: ys) (y :: x :: removeFirst x ys) := ih.cons y
      have h2 : List.Perm (y :: x :: removeFirst x ys) (x :: y :: removeFirst x ys) :=
        List.Perm.swap x y (removeFirst x ys)
      simpa [removeFirst, hxy] using h1.trans h2

theorem multisetEqB_of_perm {α : Type} [DecidableEq α] :
    ∀ (xs ys : List α), List.Perm xs ys → multisetEqB xs ys = true
  | [], ys, h => by
    have hy : ys = [] := h.symm.eq_nil
    subst hy
    rfl
  | x :: xs, ys, h => by
    have hx : x ∈ ys := h.mem_iff.mp (List.mem_cons_self x xs)
    have hp : List.Perm xs (removeFirst x ys) :=
      (h.trans (perm_removeFirst x ys hx)).cons_inv
    simp [multisetEqB, hx, multisetEqB_of_perm xs (removeFirst x ys) hp]

theorem find?_name_nodup (gs : List RuleGroup) (og : RuleGroup)
    (hnd : (gs.map (fun g => g.name)).Nodup) (hmem : og ∈ gs) :
    gs.find? (fun g => decide (g.name = og.name)) = some og := by
  induction gs with
  | nil => cases hmem
  | cons g rest ih =>
    rcases List.mem_cons.mp hmem with h | h
    · subst h
      simp [List.find?]
    · have hnd' := List.nodup_cons.mp hnd
      have hne : ¬ g.name = og.name := by
        intro he
        have hin : og.name ∈ rest.map (fun g => g.name) :=
          List.mem_map_of_mem (fun g => g.name) h
        rw [← he] at hin
        exact hnd'.1 hin
      simp [List.find?, hne, ih hnd'.2 h]

theorem forall₂_mem_right {α β : Type} {R : α → β → Prop} {xs : List α} {ys : List β}
    (h : List.Forall₂ R xs ys) : ∀ {b}, b ∈ ys → ∃ a, a ∈ xs ∧ R a b := by
  induction h with
  | nil => intro b hb; cases hb
  | cons hR _ ih =>
    intro b hb
    rcases List.mem_cons.mp hb with h' | h'
    · subst h'
      exact ⟨_, List.mem_cons_self _ _, hR⟩
    · rcases ih h' with ⟨a, ha, hRa⟩
      exact ⟨a, List.mem_cons_of_mem _ ha, hRa⟩

theorem forall₂_map_left {α β : Type} (f : α → β) (R : β → α → Prop)
    (h : ∀ a, R (f a) a) : ∀ l : List α, List.Forall₂ R (l.map f) l
  | [] => List.Forall₂.nil
  | a :: as => List.Forall₂.cons (h a) (forall₂_map_left f R h as)

theorem sortedGroups_sorted (gs : List RuleGroup) :
    List.Sorted groupLe (sortedGroups gs) := by
  have h := List.sorted_insertionSort groupLe gs
  exact List.Pairwise.map sortRules (fun _ _ hab => hab) h

theorem sortedGroups_rules_sorted (gs : List RuleGroup) :
    ∀ g ∈ sortedGroups gs, List.Sorted ruleLe g.rules := by
  intro g hg
  rcases List.mem_map.mp hg with ⟨g', _, rfl⟩
  exact List.sorted_insertionSort ruleLe g'.rules

theorem sortedGroups_content (gs : List RuleGroup) :
    List.Forall₂ groupPermRel (sortedGroups gs) (gs.insertionSort groupLe) :=
  forall₂_map_left sortRules groupPermRel
    (fun g => ⟨rfl, rfl, rfl, List.perm_insertionSort ruleLe g.rules⟩) _

theorem sortRules_sorted_eq (g : RuleGroup) (h : List.Sorted ruleLe g.rules) :
    sortRules g = g := by
  unfold sortRules
  rw [List.Sorted.insertionSort_eq h]

theorem sortedGroups_idem (gs : List RuleGroup) :
    sortedGroups (sortedGroups gs) = sortedGroups gs := by
  have hs : (sortedGroups gs).insertionSort groupLe = sortedGroups gs :=
    List.Sorted.insertionSort_eq (sortedGroups_sorted gs)
  have hmap : (sortedGroups gs).map sortRules = sortedGroups gs := by
    have hid : ∀ g ∈ sortedGroups gs, sortRules g = g :=
      fun g hg => sortRules_sorted_eq g (sortedGroups_rules_sorted gs g hg)
    calc (sortedGroups gs).map sortRules = (sortedGroups gs).map id :=
          List.map_congr_left hid
      _ = sortedGroups gs := List.map_id _
  calc sortedGroups (sortedGroups gs)
      = ((sortedGroups gs).insertionSort groupLe).map sortRules := rfl
    _ = (sortedGroups gs).map sortRules := by rw [hs]
    _ = sortedGroups gs := hmap

theorem mapME_stable {α : Type} (f : α → Except String α)
    (hf : ∀ x y, f x = .ok y → f y = .ok y) :
    ∀ (xs ys : List α), mapME f xs = .ok ys → mapME f ys = .ok ys := by
  intro xs
  induction xs with
  | nil =>
    intro ys h
    simp [mapME] at h
    subst h
    rfl
  | cons x xs ih =>
    intro ys h
    unfold mapME at h
    rcases hfx : f x with e | y
    · rw [hfx] at h; cases h
    · rw [hfx] at h
      rcases hrest : mapME f xs with e | ys'
      · rw [hrest] at h; cases h
      · rw [hrest] at h
        cases h
        have h1 := hf x y hfx
        have h2 := ih ys' hrest
        simp [mapME, h1, h2]

theorem lintRule_stable (l : String → Option String)
    (hidem : ∀ e e', l e = some e' → l e' = some e') (r r' : Rule)
    (h : lintRule l r = .ok r') : lintRule l r' = .ok r' := by
  unfold lintRule at h ⊢
  rcases hl : l r.expr with _ | e
  · rw [hl] at h; cases h
  · rw [hl] at h
    cases h
    simp [hidem r.expr e hl]

theorem lintGroup_stable (l : String → Option String)
    (hidem : ∀ e e', l e = some e' → l e' = some e') (g g' : RuleGroup)
    (h : lintGroup l g = .ok g') : lintGroup l g' = .ok g' := by
  unfold lintGroup at h ⊢
  rcases hm : mapME (lintRule l) g.rules with e | rs
  · rw [hm] at h; cases h
  · rw [hm] at h
    cases h
    have := mapME_stable (lintRule l) (lintRule_stable l hidem) g.rules rs hm
    simp [this]

theorem lintNamespace_stable (l : String → Option String)
    (hidem : ∀ e e', l e = some e' → l e' = some e') (ns ns' : RuleNamespace)
    (h : lintNamespace l ns = .ok ns') : lintNamespace l ns' = .ok ns' := by
  unfold lintNamespace at h ⊢
  rcases hm : mapME (lintGroup l) ns.groups with e | gs
  · rw [hm] at h; cases h
  · rw [hm] at h
    cases h
    have := mapME_stable (lintGroup l) (lintGroup_stable l hidem) ns.groups gs hm
    simp [this]

theorem nibbleChar_mem (n : Nat) : nibbleChar n ∈ hexCharList := by
  unfold nibbleChar
  have h : n % 16 < hexCharList.length := by
    have : n % 16 < 16 := Nat.mod_lt _ (by norm_num)
    simpa [hexCharList] using this
  rw [List.getD_eq_getElem _ _ h]
  exact List.getElem_mem h

theorem hexPairs_length : ∀ bs : List Nat, (hexPairs bs).length = 2 * bs.length
  | [] => rfl
  | b :: bs => by
    simp [hexPairs, hexPairs_length bs]
    omega

theorem hexPairs_mem : ∀ (bs : List Nat) (c : Char), c ∈ hexPairs bs → c ∈ hexCharList
  | [], c, h => absurd h (List.not_mem_nil c)
  | b :: bs, c, h => by
    rcases List.mem_cons.mp h with h' | h'
    · exact h' ▸ nibbleChar_mem (b / 16)
    · rcases List.mem_cons.mp h' with h'' | h''
      · exact h'' ▸ nibbleChar_mem b
      · exact hexPairs_mem bs c h''

theorem sha256_length (m : List Nat) : (sha256 m).length = 32 := rfl

theorem hexDigest_length (bs : List Nat) : (hexDigest bs).length = 2 * bs.length := by
  simpa [hexDigest, String.length] using hexPairs_length bs

theorem hexDigest_sha256_length (m : List Nat) : (hexDigest (sha256 m)).length = 64 := by
  rw [hexDigest_length, sha256_length]

theorem hexDigest_mem (bs : List Nat) :
    ∀ c ∈ (hexDigest bs).data, c ∈ hexCharList := fun c hc => hexPairs_mem bs c hc

theorem applyGroups_calls {σ : Type} (c : ClientOps σ) (ns : String) :
    ∀ (gs : List RuleGroup) (s : σ) (s' : σ) (calls : List RemoteCall),
      applyGroups c s ns gs = (s', calls, none) →
        calls = gs.map (RemoteCall.createGroup ns) := by
  intro gs
  induction gs with
  | nil =>
    intro s s' calls h
    unfold applyGroups at h
    cases h
    rfl
  | cons g rest ih =>
    intro s s' calls h
    unfold applyGroups at h
    rcases hc : c.createRuleGroup s ns g with ⟨s₁, e⟩
    rw [hc] at h
    cases e with
    | some e => cases h
    | none =>
      dsimp only at h
      rcases ha : applyGroups c s₁ ns rest with ⟨s₂, cl, r⟩
      rw [ha] at h
      dsimp only at h
      have hr : r = none := congrArg (fun t : σ × List RemoteCall × Option String => t.2.2) h
      subst hr
      have hcl : calls = RemoteCall.createGroup ns g :: cl :=
        (congrArg (fun t : σ × List RemoteCall × Option String => t.2.1) h).symm
      subst hcl
      simp [ih s₁ s₂ cl ha]

theorem readRuleNamespace_calls {σ : Type} (c : ClientOps σ) (storeHash : Bool)
    (v : String → Bool) (l : String → Option String) (s : σ) (d : ResData) :
    (readRuleNamespace c storeHash v l s d).calls = [RemoteCall.listRules d.nsName] := by
  unfold readRuleNamespace
  rcases c.listRules s d.nsName with ⟨s', res⟩
  cases res with
  | error e => by_cases h : e = "requested resource not found" <;> simp [h]
  | ok m =>
    rcases hN : NormalizeNamespaceYAML storeHash v l
      [Yaml.map [("groups", marshalGroupsYaml ((lookupStr m d.nsName).getD []))]] with _ | str <;>
      simp [hN]

theorem deleteAbsent_calls {σ : Type} (c : ClientOps σ) (ns : String) :
    ∀ (names : List String) (s : σ),
      (deleteAbsent c s ns names).2 = names.map (RemoteCall.deleteGroup ns) := by
  intro names
  induction names with
  | nil => intro s; rfl
  | cons n rest ih =>
    intro s
    unfold deleteAbsent
    rcases c.deleteRuleGroup s ns n with ⟨s', e⟩
    dsimp only
    rcases hd : deleteAbsent c s' ns rest with ⟨s'', calls⟩
    have := ih s'
    rw [hd] at this
    simpa using this

theorem filter_isDelete_creates (ns : String) (gs : List RuleGroup) :
    (gs.map (RemoteCall.createGroup ns)).filter isDeleteCall = [] := by
  induction gs with
  | nil => rfl
  | cons g rest ih => simp [isDeleteCall, ih]

theorem filter_isCreate_creates (ns : String) (gs : List RuleGroup) :
    (gs.map (RemoteCall.createGroup ns)).filter isCreateCall =
      gs.map (RemoteCall.createGroup ns) := by
  induction gs with
  | nil => rfl
  | cons g rest ih => simp [isCreateCall, ih]

theorem filter_isDelete_deletes (ns : String) (names : List String) :
    (names.map (RemoteCall.deleteGroup ns)).filter isDeleteCall =
      names.map (RemoteCall.deleteGroup ns) := by
  induction names with
  | nil => rfl
  | cons n rest ih => simp [isDeleteCall, ih]

theorem filter_isCreate_deletes (ns : String) (names : List String) :
    (names.map (RemoteCall.deleteGroup ns)).filter isCreateCall = [] := by
  induction names with
  | nil => rfl
  | cons n rest ih => simp [isCreateCall, ih]

theorem mapME_ok_forall₂ {α β : Type} (f : α → Except String β) :
    ∀ (xs : List α) (ys : List β), mapME f xs = .ok ys →
      List.Forall₂ (fun x y => f x = .ok y) xs ys := by
  intro xs
  induction xs with
  | nil =>
    intro ys h
    simp [mapME] at h
    subst h
    exact List.Forall₂.nil
  | cons x xs ih =>
    intro ys h
    unfold mapME at h
    rcases hfx : f x with e | y
    · rw [hfx] at h; cases h
    · rw [hfx] at h
      rcases hrest : mapME f xs with e | ys'
      · rw [hrest] at h; cases h
      · rw [hrest] at h
        cases h
        exact List.Forall₂.cons hfx (ih ys' hrest)

theorem forall₂_diag {α : Type} {R : α → α → Prop} :
    ∀ l : List α, List.Forall₂ R l l → ∀ x ∈ l, R x x := by
  intro l
  induction l with
  | nil => intro _ x hx; cases hx
  | cons a as ih =>
    intro h x hx
    cases h with
    | cons hR hrest =>
      rcases List.mem_cons.mp hx with h' | h'
      · exact h' ▸ hR
      · exact ih hrest x h'

theorem mapME_ok_of_forall {α : Type} (f : α → Except String α) :
    ∀ xs : List α, (∀ x ∈ xs, f x = .ok x) → mapME f xs = .ok xs := by
  intro xs
  induction xs with
  | nil => intro _; rfl
  | cons x xs ih =>
    intro h
    have hx := h x (List.mem_cons_self x xs)
    have hrest := ih (fun a ha => h a (List.mem_cons_of_mem x ha))
    simp [mapME, hx, hrest]

theorem lintGroup_of_rules (l : String → Option String) (g : RuleGroup)
    (h : ∀ r ∈ g.rules, lintRule l r = .ok r) : lintGroup l g = .ok g := by
  unfold lintGroup
  rw [mapME_ok_of_forall (lintRule l) g.rules h]

theorem lintGroup_rules_fixed (l : String → Option String) (g : RuleGroup)
    (h : lintGroup l g = .ok g) : ∀ r ∈ g.rules, lintRule l r = .ok r := by
  unfold lintGroup at h
  rcases hm : mapME (lintRule l) g.rules with e | rs
  · rw [hm] at h; cases h
  · rw [hm] at h
    have hrs : rs = g.rules := congrArg RuleGroup.rules (Except.ok.inj h)
    subst hrs
    exact forall₂_diag g.rules (mapME_ok_forall₂ (lintRule l) g.rules g.rules hm)

theorem lintNamespace_groups_fixed (l : String → Option String) (ns : RuleNamespace)
    (h : lintNamespace l ns = .ok ns) : ∀ g ∈ ns.groups, lintGroup l g = .ok g := by
  unfold lintNamespace at h
  rcases hm : mapME (lintGroup l) ns.groups with e | gs
  · rw [hm] at h; cases h
  · rw [hm] at h
    have hgs : gs = ns.groups := congrArg RuleNamespace.groups (Except.ok.inj h)
    subst hgs
    exact forall₂_diag ns.groups (mapME_ok_forall₂ (lintGroup l) ns.groups ns.groups hm)

theorem lintNamespace_sortedGroups (l : String → Option String) (ns' : RuleNamespace)
    (h : lintNamespace l ns' = .ok ns') :
    lintNamespace l ⟨"", sortedGroups ns'.groups⟩ = .ok ⟨"", sortedGroups ns'.groups⟩ := by
  have hgroups := lintNamespace_groups_fixed l ns' h
  have hall : ∀ g ∈ sortedGroups ns'.groups, lintGroup l g = .ok g := by
    intro g hg
    rcases List.mem_map.mp hg with ⟨g', hg', rfl⟩
    have hg'' : g' ∈ ns'.groups := (List.mem_insertionSort groupLe).mp hg'
    have hrules := lintGroup_rules_fixed l g' (hgroups g' hg'')
    refine lintGroup_of_rules l (sortRules g') ?_
    intro r hr
    exact hrules r ((List.mem_insertionSort ruleLe).mp hr)
  unfold lintNamespace
  rw [mapME_ok_of_forall (lintGroup l) (sortedGroups ns'.groups) hall]

/-- C1: for a rule-namespace document with (as the remote service expects) unique
group names, permuting its groups and the rules within each group and serializing
both versions makes the differ judge them equivalent: `diffNamespaceYAML` over the
serialized (bare group-sequence) forms returns `true`, suppressing the diff. -/
theorem C1_diff_order_insensitive (gs mid gs' : List RuleGroup)
    (hnd : (gs.map (fun g => g.name)).Nodup)
    (hrel : List.Forall₂ groupPermRel gs mid)
    (hperm : List.Perm mid gs') :
    diffNamespaceYAML [marshalGroupsYaml gs] [marshalGroupsYaml gs'] = true := by
  unfold diffNamespaceYAML
  rw [getRuleGroupsFromYaml_marshal gs, getRuleGroupsFromYaml_marshal gs']
  dsimp only
  unfold compareNamespacesUnchanged
  simp only [Bool.and_eq_true, decide_eq_true_eq, List.all_eq_true]
  constructor
  · exact hrel.length_eq.trans hperm.length_eq
  · intro ng hng
    have hmid : ng ∈ mid := hperm.mem_iff.mpr hng
    obtain ⟨og, hog, hr⟩ := forall₂_mem_right hrel hmid
    have hf := find?_name_nodup gs og hnd hog
    rw [hr.1] at hf
    rw [hf]
    simp [ruleGroupEquivB, hr.1, hr.2.1, hr.2.2.1,
      multisetEqB_of_perm og.rules ng.rules hr.2.2.2]

/-- Witness for C1: groups `[A, C]` with `A`'s two rules transposed and the two
groups swapped are judged equivalent by the differ. -/
theorem C1_witness :
    diffNamespaceYAML [marshalGroupsYaml [gA, gC]] [marshalGroupsYaml [gC, gAp]] = true :=
  C1_diff_order_insensitive [gA, gC] [gAp, gC] [gC, gAp]
    (by decide)
    (List.Forall₂.cons ⟨rfl, rfl, rfl, List.Perm.swap ruleA2 ruleA []⟩
      (List.Forall₂.cons ⟨rfl, rfl, rfl, List.Perm.refl _⟩ List.Forall₂.nil))
    (List.Perm.swap gC gAp [])

/-- C2: if either input fails to parse, the differ returns `false` (forcing the
host to treat it as a real change); its return type has no error channel, so no
error is raised. -/
theorem C2_diff_parse_failure (oldV newV : List Yaml)
    (h : (∃ e, getRuleGroupsFromYaml oldV = .error e)
      ∨ (∃ e, getRuleGroupsFromYaml newV = .error e)) :
    diffNamespaceYAML oldV newV = false := by
  rcases ho : getRuleGroupsFromYaml oldV with e1 | og
  · simp [diffNamespaceYAML, ho]
  · rcases h with ⟨e, he⟩ | ⟨e, he⟩
    · rw [ho] at he; cases he
    · simp [diffNamespaceYAML, ho, he]

/-- Witness for C2: a mapping document fails the differ's sequence parser and the
differ reports a difference. -/
theorem C2_witness :
    (∃ e, getRuleGroupsFromYaml [Yaml.map [("groups", Yaml.null)]] = .error e)
    ∧ diffNamespaceYAML [Yaml.map [("groups", Yaml.null)]] [marshalGroupsYaml [gA]] = false := by
  refine ⟨⟨"cannot unmarshal node into group list", rfl⟩, ?_⟩
  exact C2_diff_parse_failure _ _ (Or.inl ⟨"cannot unmarshal node into group list", rfl⟩)

/-- C3: on a parseable (and lintable — a lint failure panics instead) namespace
document, normalization emits the serialization of the canonical group list:
groups sorted by name ascending (byte/codepoint order on strings), rules within
each group sorted by expression text ascending, with the sort happening before
re-serialization and preserving the multiset of (linted) groups and rules. -/
theorem C3_canonical_sorting (v : String → Bool) (l : String → Option String)
    (docs : List Yaml) (ns ns' : RuleNamespace)
    (hparse : getRuleNamespaceFromYAML v docs = .ok ns)
    (hlint : lintNamespace l ns = .ok ns') :
    NormalizeNamespaceYAML false v l docs
        = some (stripNL (encodeGroups (sortedGroups ns'.groups)))
      ∧ List.Sorted groupLe (sortedGroups ns'.groups)
      ∧ (∀ g ∈ sortedGroups ns'.groups, List.Sorted ruleLe g.rules)
      ∧ List.Forall₂ groupPermRel (sortedGroups ns'.groups) (ns'.groups.insertionSort groupLe)
      ∧ List.Perm (ns'.groups.insertionSort groupLe) ns'.groups := by
  refine ⟨?_, sortedGroups_sorted _, sortedGroups_rules_sorted _, sortedGroups_content _,
    List.perm_insertionSort _ _⟩
  simp [NormalizeNamespaceYAML, hparse, hlint]

/-- Witness for C3 at the concrete document `confDocAC`. -/
theorem C3_witness :
    getRuleNamespaceFromYAML vAll [confDocAC] = .ok nsAC
    ∧ (NormalizeNamespaceYAML false vAll lId [confDocAC]
          = some (stripNL (encodeGroups (sortedGroups nsAC.groups)))
        ∧ List.Sorted groupLe (sortedGroups nsAC.groups)
        ∧ (∀ g ∈ sortedGroups nsAC.groups, List.Sorted ruleLe g.rules)
        ∧ List.Forall₂ groupPermRel (sortedGroups nsAC.groups)
            (nsAC.groups.insertionSort groupLe)
        ∧ List.Perm (nsAC.groups.insertionSort groupLe) nsAC.groups) :=
  ⟨rfl, C3_canonical_sorting vAll lId [confDocAC] nsAC nsAC rfl rfl⟩

/-- C4 as stated is false on the code: the canonical output is a bare group
sequence, which `NormalizeNamespaceYAML`'s own namespace parser rejects, so
normalizing the canonical output of `confDocAC` degrades to the empty-namespace
serialization `null` instead of reproducing the canonical text. -/
theorem C4_idempotence_counterexample :
    canonicalTree vAll lId [confDocAC] = some (marshalGroupsYaml (sortedGroups nsAC.groups))
    ∧ NormalizeNamespaceYAML false vAll lId [marshalGroupsYaml (sortedGroups nsAC.groups)]
        ≠ NormalizeNamespaceYAML false vAll lId [confDocAC] := by
  refine ⟨rfl, ?_⟩
  decide

/-- C4 amended: idempotence holds at the canonicalization core rather than
through the namespace parser.  For any parseable, lintable document, and an
idempotent external linter, the canonical group list re-parses exactly through
the differ's group parser, re-lints to itself, re-sorts to itself, and therefore
re-serializes byte-identically; the namespace-parser path instead rejects it. -/
theorem C4_idempotence_amended (v : String → Bool) (l : String → Option String)
    (docs : List Yaml) (ns ns' : RuleNamespace)
    (hidem : ∀ e e', l e = some e' → l e' = some e')
    (_hparse : getRuleNamespaceFromYAML v docs = .ok ns)
    (hlint : lintNamespace l ns = .ok ns') :
    getRuleGroupsFromYaml [marshalGroupsYaml (sortedGroups ns'.groups)]
        = .ok (sortedGroups ns'.groups)
    ∧ lintNamespace l ⟨"", sortedGroups ns'.groups⟩ = .ok ⟨"", sortedGroups ns'.groups⟩
    ∧ sortedGroups (sortedGroups ns'.groups) = sortedGroups ns'.groups
    ∧ stripNL (encodeGroups (sortedGroups (sortedGroups ns'.groups)))
        = stripNL (encodeGroups (sortedGroups ns'.groups)) := by
  have hstable := lintNamespace_stable l hidem ns ns' hlint
  refine ⟨getRuleGroupsFromYaml_marshal _, lintNamespace_sortedGroups l ns' hstable,
    sortedGroups_idem _, by rw [sortedGroups_idem]⟩

/-- Witness for C4's amended statement at `confDocAC` with the identity linter. -/
theorem C4_witness :
    getRuleNamespaceFromYAML vAll [confDocAC] = .ok nsAC
    ∧ (getRuleGroupsFromYaml [marshalGroupsYaml (sortedGroups nsAC.groups)]
          = .ok (sortedGroups nsAC.groups)
        ∧ lintNamespace lId ⟨"", sortedGroups nsAC.groups⟩ = .ok ⟨"", sortedGroups nsAC.groups⟩
        ∧ sortedGroups (sortedGroups nsAC.groups) = sortedGroups nsAC.groups
        ∧ stripNL (encodeGroups (sortedGroups (sortedGroups nsAC.groups)))
            = stripNL (encodeGroups (sortedGroups nsAC.groups))) :=
  ⟨rfl, C4_idempotence_amended vAll lId [confDocAC] nsAC nsAC
    (fun e e' h => by cases h; rfl) rfl rfl⟩

/-- C5: on a parseable, lint-clean document, hash mode returns exactly the
lowercase-hex SHA-256 digest of the canonical YAML bytes (the bytes derive from
the groups only, not the namespace name), that digest is 64 lowercase hex
characters, non-hash mode returns exactly those canonical bytes, and the
trailing-newline strip happens before the mode branch so both modes see the same
bytes; both are functions of the input, hence deterministic across calls. -/
theorem C5_hash_mode (v : String → Bool) (l : String → Option String)
    (docs : List Yaml) (ns ns' : RuleNamespace)
    (hparse : getRuleNamespaceFromYAML v docs = .ok ns)
    (hlint : lintNamespace l ns = .ok ns') :
    NormalizeNamespaceYAML true v l docs
        = some (hexDigest (sha256 (strBytes (stripNL (encodeGroups (sortedGroups ns'.groups))))))
      ∧ (hexDigest (sha256 (strBytes (stripNL (encodeGroups (sortedGroups ns'.groups)))))).length
          = 64
      ∧ (∀ c ∈ (hexDigest (sha256 (strBytes (stripNL
          (encodeGroups (sortedGroups ns'.groups)))))).data, c ∈ hexCharList)
      ∧ NormalizeNamespaceYAML false v l docs
          = some (stripNL (encodeGroups (sortedGroups ns'.groups))) := by
  refine ⟨?_, hexDigest_sha256_length _, hexDigest_mem _, ?_⟩ <;>
    simp [NormalizeNamespaceYAML, hparse, hlint]

/-- Witness for C5 at the concrete document `confDocAC`. -/
theorem C5_witness :
    getRuleNamespaceFromYAML vAll [confDocAC] = .ok nsAC
    ∧ (NormalizeNamespaceYAML true vAll lId [confDocAC]
          = some (hexDigest (sha256 (strBytes (stripNL (encodeGroups (sortedGroups nsAC.groups))))))
        ∧ (hexDigest (sha256 (strBytes (stripNL (encodeGroups (sortedGroups nsAC.groups)))))).length
            = 64
        ∧ (∀ c ∈ (hexDigest (sha256 (strBytes (stripNL
            (encodeGroups (sortedGroups nsAC.groups)))))).data, c ∈ hexCharList)
        ∧ NormalizeNamespaceYAML false vAll lId [confDocAC]
            = some (stripNL (encodeGroups (sortedGroups nsAC.groups)))) :=
  ⟨rfl, C5_hash_mode vAll lId [confDocAC] nsAC nsAC rfl rfl⟩

/-- C6: a namespace whose rules fail expression validation (the lint step) still
parses successfully — the hypotheses exhibit a successful parse next to a failing
lint — but the failure is fatal to both create and update, which abort with the
lint error before issuing any remote call. -/
theorem C6_lint_nonfatal_parse_fatal_apply {σ : Type} (c : ClientOps σ)
    (storeHash : Bool) (v : String → Bool) (l : String → Option String) (s : σ)
    (d : ResData) (ns : RuleNamespace) (e : String)
    (hparse : getRuleNamespaceFromYAML v d.configYaml = .ok ns)
    (hlint : lintNamespace l ns = .error e) :
    createRuleNamespace c storeHash v l s d = ⟨s, d, [], some (OpErr.diagErr e)⟩
    ∧ updateRuleNamespace c storeHash v l s d = ⟨s, d, [], some (OpErr.diagErr e)⟩ := by
  have hc : createRuleNamespace c storeHash v l s d = ⟨s, d, [], some (OpErr.diagErr e)⟩ := by
    simp [createRuleNamespace, hparse, hlint]
  refine ⟨hc, ?_⟩
  unfold updateRuleNamespace
  rw [hc]

/-- Witness for C6: `confDocAC` parses under the accept-all validator while the
reject-all linter fails it, and create/update abort without remote calls. -/
theorem C6_witness :
    getRuleNamespaceFromYAML vAll [confDocAC] = .ok nsAC
    ∧ lintNamespace lNone nsAC = .error "could not parse expression: exprA"
    ∧ (createRuleNamespace (mockClient lId) false vAll lNone [] d0
          = ⟨[], d0, [], some (OpErr.diagErr "could not parse expression: exprA")⟩
        ∧ updateRuleNamespace (mockClient lId) false vAll lNone [] d0
          = ⟨[], d0, [], some (OpErr.diagErr "could not parse expression: exprA")⟩) :=
  ⟨rfl, rfl,
    C6_lint_nonfatal_parse_fatal_apply (mockClient lId) false vAll lNone [] d0 nsAC
      "could not parse expression: exprA" rfl rfl⟩

/-- C9 as stated is false on the code: `NormalizeNamespaceYAML` panics (aborts
the process) when the lint step fails on a parsed namespace — here the concrete
document parses but the linter rejects its expressions, and normalization hits
the `panic(err)` branch instead of degrading to a string. -/
theorem C9_crash_counterexample :
    getRuleNamespaceFromYAML vAll [confDocAC] = .ok nsAC
    ∧ NormalizeNamespaceYAML false vAll lNone [confDocAC] = none :=
  ⟨rfl, rfl⟩

/-- C9 amended: normalization never crashes on a parse failure — the parse error
is discarded, the zero-value namespace lints trivially, and the result degrades
to the serialization of the empty namespace (`null`), in both modes; only a lint
failure of a parsed namespace panics. -/
theorem C9_degrade_amended (storeHash : Bool) (v : String → Bool)
    (l : String → Option String) (docs : List Yaml) (e : String)
    (hfail : getRuleNamespaceFromYAML v docs = .error e) :
    NormalizeNamespaceYAML storeHash v l docs
      = some (if storeHash then hexDigest (sha256 (strBytes "null")) else "null") := by
  unfold NormalizeNamespaceYAML
  rw [hfail]
  rfl

/-- Witness for C9's amended statement: a document with an unknown top-level
field fails to parse and normalization degrades to `null`. -/
theorem C9_witness :
    getRuleNamespaceFromYAML vAll [Yaml.map [("bogus", Yaml.scalar "x")]]
        = .error "field not found in type rules.RuleNamespace"
    ∧ NormalizeNamespaceYAML false vAll lId [Yaml.map [("bogus", Yaml.scalar "x")]]
        = some (if false then hexDigest (sha256 (strBytes "null")) else "null") :=
  ⟨rfl, C9_degrade_amended false vAll lId [Yaml.map [("bogus", Yaml.scalar "x")]]
    "field not found in type rules.RuleNamespace" rfl⟩

/-- C10: the differ parses each side as a bare top-level sequence of rule groups,
not as the namespace format: any document that is a top-level mapping with a
`groups` key fails that parse, so `diffNamespaceYAML` returns `false` whenever
either side is in the documented configuration format. -/
theorem C10_differ_rejects_namespace_format (kvs : List (String × Yaml)) (gv : Yaml)
    (rest other : List Yaml) (_hg : ("groups", gv) ∈ kvs) :
    (∃ e, getRuleGroupsFromYaml (Yaml.map kvs :: rest) = .error e)
    ∧ diffNamespaceYAML (Yaml.map kvs :: rest) other = false
    ∧ diffNamespaceYAML other (Yaml.map kvs :: rest) = false := by
  have he : getRuleGroupsFromYaml (Yaml.map kvs :: rest)
      = .error "cannot unmarshal node into group list" := rfl
  refine ⟨⟨_, he⟩, ?_, ?_⟩
  · simp [diffNamespaceYAML, he]
  · rcases ho : getRuleGroupsFromYaml other with e | og
    · simp [diffNamespaceYAML, ho]
    · simp [diffNamespaceYAML, ho, he]

/-- C7: when the create phase of an update succeeds (parse, lint, per-group
upsert, read-back) and the subsequent listing returns the remote map `m`, the
update issues exactly one create call per desired group (the idempotent upsert,
in order) and exactly one delete call per remote group name absent from the
desired document's group names — no other creates or deletes. -/
theorem C7_reconcile_deletes {σ : Type} (c : ClientOps σ) (storeHash : Bool)
    (v : String → Bool) (l : String → Option String) (s : σ) (d : ResData)
    (ns ns' : RuleNamespace) (m : List (String × List RuleGroup))
    (hparse : getRuleNamespaceFromYAML v d.configYaml = .ok ns)
    (hlint : lintNamespace l ns = .ok ns')
    (happly : (applyGroups c s d.nsName ns'.groups).2.2 = none)
    (hread : (readRuleNamespace c storeHash v l (applyGroups c s d.nsName ns'.groups).1
        { d with rid := hashId d.nsName }).err = none)
    (hlist : (c.listRules (readRuleNamespace c storeHash v l
        (applyGroups c s d.nsName ns'.groups).1 { d with rid := hashId d.nsName }).cli
        d.nsName).2 = .ok m) :
    (updateRuleNamespace c storeHash v l s d).err = none
    ∧ (updateRuleNamespace c storeHash v l s d).calls.filter isDeleteCall
        = ((((lookupStr m d.nsName).getD []).map (fun g => g.name)).filter
            (fun n => !decide (n ∈ ns'.groups.map (fun g => g.name)))).map
            (RemoteCall.deleteGroup d.nsName)
    ∧ (updateRuleNamespace c storeHash v l s d).calls.filter isCreateCall
        = ns'.groups.map (RemoteCall.createGroup d.nsName) := by
  rcases ha : applyGroups c s d.nsName ns'.groups with ⟨s₁, cCalls, r⟩
  rw [ha] at happly hread hlist
  dsimp only at happly hread hlist
  subst happly
  have hcC : cCalls = ns'.groups.map (RemoteCall.createGroup d.nsName) :=
    applyGroups_calls c d.nsName ns'.groups s s₁ cCalls ha
  rcases hr : readRuleNamespace c storeHash v l s₁ { d with rid := hashId d.nsName }
    with ⟨s₂, d₂, rCalls, rerr⟩
  rw [hr] at hread hlist
  dsimp only at hread hlist
  subst hread
  have hrC : rCalls = [RemoteCall.listRules d.nsName] := by
    have h := readRuleNamespace_calls c storeHash v l s₁ { d with rid := hashId d.nsName }
    rw [hr] at h
    exact h
  have hcreate : createRuleNamespace c storeHash v l s d
      = ⟨s₂, d₂, cCalls ++ rCalls, none⟩ := by
    unfold createRuleNamespace
    rw [hparse]
    dsimp only
    rw [hlint]
    dsimp only
    rw [ha]
    dsimp only
    rw [hr]
  rcases hL : c.listRules s₂ d.nsName with ⟨s₃, res⟩
  rw [hL] at hlist
  dsimp only at hlist
  subst hlist
  rcases hD : deleteAbsent c s₃ d.nsName
      ((((lookupStr m d.nsName).getD []).map (fun g => g.name)).filter
        (fun n => !decide (n ∈ ns'.groups.map (fun g => g.name)))) with ⟨s₄, dcalls⟩
  have hdC : dcalls
      = ((((lookupStr m d.nsName).getD []).map (fun g => g.name)).filter
          (fun n => !decide (n ∈ ns'.groups.map (fun g => g.name)))).map
          (RemoteCall.deleteGroup d.nsName) := by
    have h := deleteAbsent_calls c d.nsName
      ((((lookupStr m d.nsName).getD []).map (fun g => g.name)).filter
        (fun n => !decide (n ∈ ns'.groups.map (fun g => g.name)))) s₃
    rw [hD] at h
    exact h
  have hupd : updateRuleNamespace c storeHash v l s d
      = ⟨s₄, d₂, (cCalls ++ rCalls) ++ RemoteCall.listRules d.nsName :: dcalls, none⟩ := by
    unfold updateRuleNamespace
    rw [hcreate]
    dsimp only
    rw [hparse]
    dsimp only
    rw [hlint]
    dsimp only
    unfold getRuleNamespaceOp
    rw [hL]
    dsimp only
    rw [hD]
  rw [hupd]
  subst hcC
  subst hrC
  subst hdC
  refine ⟨rfl, ?_, ?_⟩
  · dsimp only
    simp [List.filter_append, List.filter, filter_isDelete_creates, filter_isDelete_deletes,
      isDeleteCall]
  · dsimp only
    simp [List.filter_append, List.filter, filter_isCreate_creates, filter_isCreate_deletes,
      isCreateCall]

/-- Witness for C7: with the mock client holding remote groups `{A, B, C}` and
the desired document holding `{A, C}`, the update issues exactly the creates for
`A` and `C` and exactly one delete, for `B`. -/
theorem C7_witness :
    (updateRuleNamespace (mockClient lId) false vAll lId st0 d0).err = none
    ∧ (updateRuleNamespace (mockClient lId) false vAll lId st0 d0).calls.filter isDeleteCall
        = [RemoteCall.deleteGroup "gns" "B"]
    ∧ (updateRuleNamespace (mockClient lId) false vAll lId st0 d0).calls.filter isCreateCall
        = [RemoteCall.createGroup "gns" gA, RemoteCall.createGroup "gns" gC] := by
  obtain ⟨h1, h2, h3⟩ := C7_reconcile_deletes (mockClient lId) false vAll lId st0 d0
    nsAC nsAC [("gns", [gB, gA, gC])] rfl rfl rfl rfl rfl
  refine ⟨h1, h2.trans (by decide), h3.trans (by decide)⟩

/-- C8 concerns a code bug: `updateRuleNamespace` guards the deletion loop's
abort with the stale `err` variable instead of `errRaw`, so when removing a
remote group absent from the desired document fails, the update still reports
success instead of aborting with the removal's error — here `B`'s removal fails
with "remote failure", the delete call was issued, and the update's result is
success. -/
theorem C8_delete_failure_ignored :
    (updateRuleNamespace failDeleteClient false vAll lId () dOnlyA).err = none
    ∧ RemoteCall.deleteGroup "gns" "B"
        ∈ (updateRuleNamespace failDeleteClient false vAll lId () dOnlyA).calls
    ∧ (failDeleteClient.deleteRuleGroup () "gns" "B").2 = some "remote failure" := by
  refine ⟨rfl, ?_, rfl⟩
  decide

/-- Witness for C10: `confDocAC` is accepted by the namespace parser yet the
differ reports a difference even between the document and itself. -/
theorem C10_witness :
    getRuleNamespaceFromYAML vAll [confDocAC] = .ok nsAC
    ∧ diffNamespaceYAML [confDocAC] [confDocAC] = false :=
  ⟨rfl,
    (C10_differ_rejects_namespace_format confEntriesAC
      (Yaml.seq [marshalGroupYaml gA, marshalGroupYaml gC]) [] [confDocAC]
      (List.mem_cons_of_mem _ (List.mem_cons_self _ _))).2.1⟩

end Cortextool
